import Mathlib

/-!
Shallow embedding of the SQLite CSV virtual-table module (src/csv.c).

Files and rows are modelled as lists of characters; the embedding assumes
NUL-free contents, since the C code manipulates NUL-terminated strings.
The `FILE` handle is modelled by the unread suffix of the file together
with the byte offset already consumed.  `fgets` is modelled chunk by
chunk, including the row-buffer capacity bookkeeping of `csv_getline`
(initial 100 bytes, geometric growth, shrink after a grown read), because
the chunk boundaries are observable in the module's behaviour.
Allocation failures in `csvNext` are assumed not to happen; the one
allocation whose failure the spec talks about (the unescaping buffer of
`csvColumn`) is modelled by an explicit allocation oracle.
-/

/-- Result code SQLITE_OK. -/
def SQLITE_OK : Int := 0

/-- Result code SQLITE_ERROR. -/
def SQLITE_ERROR : Int := 1

/-- Result of one `csv_getline` call (csv.c:120-197).
`ok row rest maxRowOut` is a successful read: the normalized row, the
unread remainder of the file, and the persisted row-buffer capacity
(`pCSV->maxRow` after the optional shrink of csv.c:192-195).
`eofEnd rest maxRowOut` is `fgets` returning NULL with an empty buffer
(clean end of data, csv.c:157-158).  `tooLong rest maxRowOut` is the
row-length limit check of csv.c:143-145 failing.  The C function returns
the NULL pointer for both of the last two; `csvNext` cannot tell them
apart. -/
inductive GetlineResult where
  | ok (row rest : List Char) (maxRowOut : Nat)
  | eofEnd (rest : List Char) (maxRowOut : Nat)
  | tooLong (rest : List Char) (maxRowOut : Nat)
  deriving DecidableEq, Repr

/-- Model of `fgets(dst, cap, f)` restricted to its effect on the stream:
`fgetsChunk k file` reads at most `k` (that is, `cap - 1`) characters,
stopping after a newline, and returns the chunk together with the
remaining file contents. -/
def fgetsChunk : Nat → List Char → List Char × List Char
  | 0, f => ([], f)
  | _ + 1, [] => ([], [])
  | k + 1, c :: f =>
    if c = '\n' then ([c], f)
    else
      let p := fgetsChunk k f
      (c :: p.1, p.2)

/-- The quoted-column tracking scan of `csv_getline` (csv.c:164-178),
run over the newly appended chunk.  `prev` is the character just before
the current scan position (`none` when the position is the start of the
row, matching the `n==0` test); the escaped-quote test reads one
character ahead, and at the end of the chunk it sees the NUL terminator
written by `fgets`, so a `""` pair split across two chunks is not
recognized as an escape.  One fuel unit per character; callers pass the
chunk length plus one, so the fuel never runs out. -/
def scanQuotes (delim : Char) : Nat → Bool → Option Char → List Char → Bool
  | 0, q, _, _ => q
  | fuel + 1, q, prev, l =>
    match l with
    | [] => q
    | c :: rest =>
      if c = '"' then
        if q then
          if rest.head? = some '"' then scanQuotes delim fuel q (some '"') rest.tail
          else scanQuotes delim fuel false (some '"') rest
        else if prev = none ∨ prev = some delim then
          scanQuotes delim fuel true (some '"') rest
        else
          scanQuotes delim fuel q (some '"') rest
      else
        scanQuotes delim fuel q (some c) rest

/-- Line-ending normalization of `csv_getline` (csv.c:179-190), applied
when the buffer's last character is a terminator seen outside quoted
mode: `\r\n` collapses to a single `\n`, and a final `\r` or `\n`
becomes a single trailing `\n`. -/
def normalizeEol (buf : List Char) : List Char :=
  if 2 ≤ buf.length ∧ buf.getLast? = some '\n' ∧ buf[buf.length - 2]? = some '\r' then
    buf.dropLast.dropLast ++ ['\n']
  else
    buf.dropLast ++ ['\n']

/-- The read loop of `csv_getline` (csv.c:139-191), one fuel unit per
`fgets` call.  `buf` is the row accumulated so far, `q` the persisted
quoted-column flag, `maxRow` the current buffer capacity, `grew` the
`bShrink` flag (whether the buffer was reallocated during this call).
Every reachable iteration has capacity for at least 99 fresh characters,
so an empty chunk means end of file; the loop therefore runs at most
`file.length + 1` times and the fuel-exhausted default is unreachable
from `csvGetline`. -/
def getlineLoop (delim : Char) (limitLen : Nat) :
    Nat → List Char → Bool → Nat → Bool → List Char → GetlineResult
  | 0, _, _, maxRow, _, file => .tooLong file maxRow
  | fuel + 1, buf, q, maxRow, grew, file =>
    if buf.length + 100 > maxRow ∧ maxRow * 2 + 100 ≥ limitLen then
      .tooLong file maxRow
    else
      let maxRow' := if buf.length + 100 > maxRow then maxRow * 2 + 100 else maxRow
      let grew' := grew || decide (buf.length + 100 > maxRow)
      let chunk := (fgetsChunk (maxRow' - buf.length - 1) file).1
      let rest := (fgetsChunk (maxRow' - buf.length - 1) file).2
      if chunk = [] then
        if buf = [] then .eofEnd rest (if grew' then 1 else maxRow')
        else .ok buf rest (if grew' then buf.length + 1 else maxRow')
      else
        let buf' := buf ++ chunk
        let q' := scanQuotes delim (chunk.length + 1) q buf.getLast? chunk
        if (buf'.getLast? = some '\n' ∨ buf'.getLast? = some '\r') ∧ q' = false then
          .ok (normalizeEol buf') rest (if grew' then buf'.length + 1 else maxRow')
        else
          getlineLoop delim limitLen fuel buf' q' maxRow' grew' rest

/-- csv_getline (csv.c:120-197).  `maxRow0` is the persisted buffer
capacity (`pCSV->maxRow`, 0 before the first call; csv.c:127-132
allocates the initial 100-byte buffer). -/
def csvGetline (delim : Char) (limitLen maxRow0 : Nat) (file : List Char) : GetlineResult :=
  getlineLoop delim limitLen (file.length + 1) [] false
    (if maxRow0 < 1 then 100 else maxRow0) false file

/-- The closing-quote search of `csvNext` (csv.c:369-386): starting just
after the opening quote, returns the stored column slice (escaped pairs
still doubled, exactly as they stay in the row buffer), the
escaped-quote count `pCSV->aEscapedQuotes[nCol]`, and the characters
after the closing quote; `none` when no closing quote exists
(csv.c:372-375).  One fuel unit per character; callers pass the slice
length plus one, so the fuel never runs out. -/
def scanQuoted : Nat → List Char → Option (List Char × Nat × List Char)
  | 0, _ => none
  | fuel + 1, s =>
    match s with
    | [] => none
    | c :: rest =>
      if c = '"' then
        if rest.head? = some '"' then
          match scanQuoted fuel rest.tail with
          | none => none
          | some (sl, k, r) => some ('"' :: '"' :: sl, k + 1, r)
        else some ([], 0, rest)
      else
        match scanQuoted fuel rest with
        | none => none
        | some (sl, k, r) => some (c :: sl, k, r)

/-- Model of `strpbrk(s, zDelims)` with `zDelims = {delim, newline}`
(csv.c:391): splits `s` at the first occurrence of the delimiter or a
newline, returning the prefix, the found character and the suffix after
it; `none` when neither occurs. -/
def strpbrkD (delim : Char) : List Char → Option (List Char × Char × List Char)
  | [] => none
  | c :: rest =>
    if c = delim ∨ c = '\n' then some ([], c, rest)
    else
      match strpbrkD delim rest with
      | none => none
      | some (p, d, r) => some (c :: p, d, r)

/-- Result of the column-parsing loop of `csvNext` (csv.c:363-431).
`ok cols maxColOut` carries the parsed (slice, escaped-quote-count)
pairs and the persisted column-array capacity `pCSV->maxCol`.
`errEof maxColOut` is an unterminated quote (csv.c:372-375) or a missing
column delimiter (csv.c:392-395): both set `pCSV->eof` and return
SQLITE_ERROR.  `errNoEof maxColOut` is the column-limit check of
csv.c:409-411: SQLITE_ERROR without touching `pCSV->eof`. -/
inductive RowParse where
  | ok (cols : List (List Char × Nat)) (maxColOut : Nat)
  | errEof (maxColOut : Nat)
  | errNoEof (maxColOut : Nat)
  deriving DecidableEq, Repr

/-- Parsed columns of a `RowParse`, when it succeeded. -/
def RowParse.colsOf : RowParse → Option (List (List Char × Nat))
  | .ok cols _ => some cols
  | _ => none

/-- The do-while column loop of `csvNext` (csv.c:363-428), one fuel unit
per column.  Each iteration consumes at least one character of `s`, so
the fuel-exhausted default is unreachable from `parseRow`.  A column
starting with `"` takes the quoted path (csv.c:365-386); otherwise the
slice runs to the next delimiter or newline (csv.c:387-391).  After a
column ended by the delimiter, the capacity check of csv.c:408-426
grows the column arrays to `nCol + 5` entries, failing with
`errNoEof` when `nCol` has reached the column limit; reallocation is
assumed to succeed.  The loop ends at a column terminated by the
newline (csv.c:404) or when the character after the delimiter is the
end of the row (`while(*s)`, csv.c:428). -/
def parseColsLoop (delim : Char) (limitCol : Nat) :
    Nat → List Char → Nat → Nat → List (List Char × Nat) → RowParse
  | 0, _, _, maxCol, _ => .errEof maxCol
  | fuel + 1, s, nCol, maxCol, acc =>
    if s.head? = some '"' then
      match scanQuoted (s.tail.length + 1) s.tail with
      | none => .errEof maxCol
      | some (sl, k, afterQ) =>
        match strpbrkD delim afterQ with
        | none => .errEof maxCol
        | some (_, d, r) =>
          if d = '\n' then .ok (acc ++ [(sl, k)]) maxCol
          else if nCol + 1 ≥ maxCol then
            if nCol + 1 ≥ limitCol then .errNoEof maxCol
            else if r = [] then .ok (acc ++ [(sl, k)]) (nCol + 6)
            else parseColsLoop delim limitCol fuel r (nCol + 1) (nCol + 6) (acc ++ [(sl, k)])
          else if r = [] then .ok (acc ++ [(sl, k)]) maxCol
          else parseColsLoop delim limitCol fuel r (nCol + 1) maxCol (acc ++ [(sl, k)])
    else
      match strpbrkD delim s with
      | none => .errEof maxCol
      | some (p, d, r) =>
        if d = '\n' then .ok (acc ++ [(p, 0)]) maxCol
        else if nCol + 1 ≥ maxCol then
          if nCol + 1 ≥ limitCol then .errNoEof maxCol
          else if r = [] then .ok (acc ++ [(p, 0)]) (nCol + 6)
          else parseColsLoop delim limitCol fuel r (nCol + 1) (nCol + 6) (acc ++ [(p, 0)])
        else if r = [] then .ok (acc ++ [(p, 0)]) maxCol
        else parseColsLoop delim limitCol fuel r (nCol + 1) maxCol (acc ++ [(p, 0)])

/-- The tokenizing part of `csvNext` applied to one row (csv.c:347-431).
`maxCol0` is the persisted column-array capacity; when no array has
been allocated yet the initial capacity guess is
`strlen(zRow)/5 + 1` (csv.c:348-356). -/
def parseRow (delim : Char) (limitCol : Nat) (row : List Char) (maxCol0 : Nat) : RowParse :=
  parseColsLoop delim limitCol (row.length + 1) row 0
    (if maxCol0 < 1 then row.length / 5 + 1 else maxCol0) []

/-- The CSV virtual-table object `struct CSV` (csv.c:47-64), restricted
to the fields the parsing core reads and writes.  `file` is the whole
file contents, `rem` the unread suffix of the file (the `FILE` position)
and `pos` the byte offset already consumed (`ftell`).  `eof`, `maxRow`,
`nCol`, `maxCol` and `cols` are the table-level (cursor-shared) parse
state; `limitLength` and `limitColumn` stand for
`sqlite3_limit(db, SQLITE_LIMIT_LENGTH/COLUMN, -1)`. -/
structure CSVTable where
  file : List Char
  rem : List Char
  pos : Nat
  offsetFirstRow : Nat
  eof : Bool
  maxRow : Nat
  cDelim : Char
  nCol : Nat
  maxCol : Nat
  cols : List (List Char × Nat)
  limitLength : Nat
  limitColumn : Nat
  deriving DecidableEq, Repr

/-- The cursor object `struct CSVCursor` (csv.c:70-73): only the `ftell`
position of the row it currently exposes. -/
structure CSVCursor where
  csvpos : Nat
  deriving DecidableEq, Repr

/-- csvNext (csv.c:324-432): record the current file offset in the
cursor, read one row, tokenize it into the shared column state.  A NULL
from `csv_getline` (end of data, over-long row, or allocation failure)
sets `eof` and returns SQLITE_OK (csv.c:341-345).  An unterminated quote
or missing delimiter sets `eof` and returns SQLITE_ERROR; the
column-limit failure returns SQLITE_ERROR without setting `eof`.
`nCol` and `cols` are updated only on success (csv.c:430); the C code
additionally scribbles on the shared arrays before failing, which is
invisible here because every failure path forbids further reads until a
rewind. -/
def csvNext (s : CSVTable) (c : CSVCursor) : Int × CSVTable × CSVCursor :=
  if s.eof then (SQLITE_ERROR, s, c)
  else
    let c' : CSVCursor := ⟨s.pos⟩
    match csvGetline s.cDelim s.limitLength s.maxRow s.rem with
    | .eofEnd rest mro =>
      (SQLITE_OK,
        { s with eof := true, rem := rest, pos := s.pos + (s.rem.length - rest.length),
                 maxRow := mro }, c')
    | .tooLong rest mro =>
      (SQLITE_OK,
        { s with eof := true, rem := rest, pos := s.pos + (s.rem.length - rest.length),
                 maxRow := mro }, c')
    | .ok row rest mro =>
      let s1 := { s with rem := rest, pos := s.pos + (s.rem.length - rest.length),
                         maxRow := mro }
      match parseRow s.cDelim s.limitColumn row s.maxCol with
      | .errEof mco => (SQLITE_ERROR, { s1 with eof := true, maxCol := mco }, c')
      | .errNoEof mco => (SQLITE_ERROR, { s1 with maxCol := mco }, c')
      | .ok cols mco =>
        (SQLITE_OK, { s1 with nCol := cols.length, maxCol := mco, cols := cols }, c')

/-- csvFilter (csv.c:294-318): clear the end-of-data flag, seek the
shared file back to the first data row, and read one row.  The reference
bump around the body (csvReference/csvRelease, csv.c:307-315) is
modelled separately in the lifecycle component. -/
def csvFilter (s : CSVTable) (c : CSVCursor) : Int × CSVTable × CSVCursor :=
  csvNext { s with eof := false, rem := s.file.drop s.offsetFirstRow,
                   pos := s.offsetFirstRow } c

/-- csvEof (csv.c:441-446): reads the table-level flag through the
cursor's table pointer; the cursor contributes nothing. -/
def csvEofC (s : CSVTable) (_c : CSVCursor) : Bool := s.eof

/-- csvRowid (csv.c:501-507): the remembered `ftell` position of the
current row. -/
def csvRowid (c : CSVCursor) : Int := c.csvpos

/-- Value handed to the host by `csvColumn` through the
`sqlite3_result_*` callbacks. -/
inductive ColValue where
  | null
  | text (t : List Char)
  | toobig
  | nomem
  deriving DecidableEq, Repr

/-- The quote-collapsing copy loop of `csvColumn` (csv.c:476-484): each
character is copied, and after copying a `"` the following character is
skipped. -/
def unescapeQuotes : List Char → List Char
  | [] => []
  | '"' :: _ :: rest => '"' :: unescapeQuotes rest
  | c :: rest => c :: unescapeQuotes rest

/-- csvColumn (csv.c:452-493).  `alloc` tells whether an
`sqlite3_malloc` of the given size succeeds; the middle component of the
result lists the sizes of the allocations performed.  An index outside
`[0, nCol)` yields null (csv.c:455-456); a column with no escaped
quotes is returned as-is with no allocation (csv.c:487-489); otherwise
a buffer of `strlen(col) - escapedQuotes + 1` bytes is allocated and
the slice copied with `""` collapsed (csv.c:462-486).  The C function
always returns SQLITE_OK (csv.c:492). -/
def csvColumn (alloc : Nat → Bool) (s : CSVTable) (i : Int) : ColValue × List Nat × Int :=
  if i < 0 ∨ (s.nCol : Int) ≤ i then (.null, [], SQLITE_OK)
  else
    match s.cols[i.toNat]? with
    | none => (.null, [], SQLITE_OK)
    | some (col, esc) =>
      if esc = 0 then (.text col, [], SQLITE_OK)
      else
        let nByte := col.length - esc + 1
        if nByte > s.limitLength then (.toobig, [], SQLITE_OK)
        else if alloc nByte then (.text (unescapeQuotes col), [nByte], SQLITE_OK)
        else (.nomem, [], SQLITE_OK)

/-- The reference-counted part of the table lifecycle: `pCSV->nBusy`
plus whether `csvRelease` has torn the object down (closed the file and
freed the buffers, csv.c:552-556). -/
structure RefState where
  nBusy : Int
  freed : Bool
  deriving DecidableEq, Repr

/-- csvReference (csv.c:537-539). -/
def csvReference (t : RefState) : RefState := { t with nBusy := t.nBusy + 1 }

/-- csvRelease (csv.c:546-559): decrement the count; when it drops below
1, close the file and free the row buffer, the column array and the
table object itself. -/
def csvRelease (t : RefState) : RefState :=
  let n := t.nBusy - 1
  if n < 1 then { nBusy := n, freed := true } else { t with nBusy := n }

/-- csvOpen (csv.c:262-276) allocates and zeroes a cursor object and
points it at the table; it does not touch the table's reference
count. -/
def csvOpenRef (t : RefState) : RefState := t

/-- csvClose (csv.c:282-288) frees the cursor object; it does not touch
the table's reference count. -/
def csvCloseRef (t : RefState) : RefState := t

/-- csvDisconnect (csv.c:246-248), also csvDestroy (csv.c:254-256):
release one reference. -/
def csvDisconnectRef (t : RefState) : RefState := csvRelease t

/-- A fresh table state over a file as `csvInit` builds it before the
discovery read (csv.c:624-666): default delimiter, no header row
(`offsetFirstRow` 0), nothing parsed yet. -/
def mkTable (limL limC : Nat) (file : List Char) : CSVTable :=
  { file := file, rem := file, pos := 0, offsetFirstRow := 0, eof := false,
    maxRow := 0, cDelim := ',', nCol := 0, maxCol := 0, cols := [],
    limitLength := limL, limitColumn := limC }

/-- The discovery read of `csvInit` (csv.c:668-675): one `csvNext` on a
throwaway cursor; construction fails unless it returns SQLITE_OK with a
positive column count.  Without the header option nothing reseeks, so
`offsetFirstRow` stays 0. -/
def initTable (limL limC : Nat) (file : List Char) : Int × CSVTable :=
  let t := csvNext (mkTable limL limC file) ⟨0⟩
  (t.1, t.2.1)

/-- The host's scan loop over an opened cursor, as the SQLite core
drives it after xFilter: while not at end of data, deliver the current
row (its rowid and the shared column state), then call xNext; a non-OK
xNext aborts the scan.  Returns the delivered rows and the final table
and cursor states.  One fuel unit per row. -/
def scanGo : Nat → CSVTable → CSVCursor →
    List (Int × List (List Char × Nat)) × CSVTable × CSVCursor
  | 0, s, c => ([], s, c)
  | fuel + 1, s, c =>
    if s.eof then ([], s, c)
    else
      let t := csvNext s c
      if t.1 = SQLITE_OK then
        let w := scanGo fuel t.2.1 t.2.2
        ((csvRowid c, s.cols) :: w.1, w.2)
      else ([(csvRowid c, s.cols)], t.2)

/-- One full scan: xFilter, then the host loop.  A failing xFilter
yields no rows.  Each successful row read consumes at least one byte of
the file, so `file.length + 1` fuel never runs out. -/
def fullScan (s : CSVTable) (c : CSVCursor) :
    List (Int × List (List Char × Nat)) × CSVTable × CSVCursor :=
  let t := csvFilter s c
  if t.1 = SQLITE_OK then scanGo (t.2.1.file.length + 1) t.2.1 t.2.2
  else ([], t.2)

/-- A row text built from field texts: the fields joined by the
delimiter, terminated by a newline.  This is the claim-side description
of a well-formed row of unquoted fields. -/
def joinFields (delim : Char) : List (List Char) → List Char
  | [] => []
  | [f] => f
  | f :: fs => f ++ delim :: joinFields delim fs

/-- A well-formed row: joined fields plus the trailing newline. -/
def joinRow (delim : Char) (fields : List (List Char)) : List Char :=
  joinFields delim fields ++ ['\n']

/-- Concrete 107-byte file whose single row is
`"a...a""b<NL>c",d<NL>` with 97 `a`s: a quoted first field containing
an escaped quote and an embedded newline, then an unquoted field.  The
two quotes of the `""` pair sit at byte offsets 98 and 99, exactly
astride the first 99-byte `fgets` chunk boundary of a fresh row
buffer. -/
def F2 : List Char :=
  '"' :: (List.replicate 97 'a' ++
    ('"' :: '"' :: 'b' :: '\n' :: 'c' :: '"' :: ',' :: 'd' :: '\n' :: []))

/-- The file `F2` preceded by a one-column row `h<NL>`. -/
def F7 : List Char := 'h' :: '\n' :: F2

/-! Helper lemmas about the embedded operations. -/

theorem fgetsChunk_append (k : Nat) (f : List Char) :
    (fgetsChunk k f).1 ++ (fgetsChunk k f).2 = f := by
  induction k generalizing f with
  | zero => simp [fgetsChunk]
  | succ k ih =>
    cases f with
    | nil => simp [fgetsChunk]
    | cons c f =>
      by_cases h : c = '\n'
      · simp [fgetsChunk, h]
      · simp [fgetsChunk, h, ih]

theorem fgetsChunk_of_no_newline (k : Nat) (f : List Char)
    (hlen : f.length ≤ k) (hnl : '\n' ∉ f) : fgetsChunk k f = (f, []) := by
  induction f generalizing k with
  | nil => cases k <;> simp [fgetsChunk]
  | cons c f ih =>
    cases k with
    | zero => simp at hlen
    | succ k =>
      have hc : c ≠ '\n' := fun h => hnl (h ▸ List.mem_cons_self c f)
      have : fgetsChunk k f = (f, []) := by
        refine ih k (by simpa using hlen) (fun h => hnl (List.mem_cons_of_mem c h))
      simp [fgetsChunk, hc, this]

theorem strpbrkD_append (delim : Char) (p : List Char) (d : Char) (r : List Char)
    (hp : ∀ c ∈ p, ¬(c = delim ∨ c = '\n')) (hd : d = delim ∨ d = '\n') :
    strpbrkD delim (p ++ d :: r) = some (p, d, r) := by
  induction p with
  | nil => simp [strpbrkD, hd]
  | cons c p ih =>
    have hc : ¬(c = delim ∨ c = '\n') := hp c (List.mem_cons_self c p)
    have : strpbrkD delim (p ++ d :: r) = some (p, d, r) :=
      ih (fun x hx => hp x (List.mem_cons_of_mem c hx))
    simp [strpbrkD, hc, this]

theorem strpbrkD_eq_none (delim : Char) (s : List Char)
    (h : ∀ c ∈ s, ¬(c = delim ∨ c = '\n')) : strpbrkD delim s = none := by
  induction s with
  | nil => simp [strpbrkD]
  | cons c s ih =>
    have hc : ¬(c = delim ∨ c = '\n') := h c (List.mem_cons_self c s)
    have : strpbrkD delim s = none := ih (fun x hx => h x (List.mem_cons_of_mem c hx))
    simp [strpbrkD, hc, this]

theorem scanQuoted_decomp :
    ∀ (fuel : Nat) {s sl : List Char} {k : Nat} {r : List Char},
      scanQuoted fuel s = some (sl, k, r) → s = sl ++ '"' :: r := by
  intro fuel
  induction fuel with
  | zero => intro s sl k r h; simp [scanQuoted] at h
  | succ fuel ih =>
    intro s sl k r h
    cases s with
    | nil => simp [scanQuoted] at h
    | cons c rest =>
      rw [scanQuoted] at h
      by_cases hc : c = '"'
      · subst hc
        rw [if_pos rfl] at h
        by_cases hh : rest.head? = some '"'
        · rw [if_pos hh] at h
          cases hq : scanQuoted fuel rest.tail with
          | none => rw [hq] at h; simp at h
          | some v =>
            obtain ⟨sl', k', r'⟩ := v
            rw [hq] at h
            simp at h
            obtain ⟨rfl, rfl, rfl⟩ := h
            obtain ⟨x, t, rfl⟩ : ∃ x t, rest = x :: t := by
              cases rest with
              | nil => simp at hh
              | cons x t => exact ⟨x, t, rfl⟩
            have hx : x = '"' := by simpa using hh
            subst hx
            have ht : t = sl' ++ '"' :: r' := by simpa using ih hq
            simp [ht]
        · rw [if_neg hh] at h
          simp at h
          obtain ⟨rfl, rfl, rfl⟩ := h
          simp
      · rw [if_neg hc] at h
        cases hq : scanQuoted fuel rest with
        | none => rw [hq] at h; simp at h
        | some v =>
          obtain ⟨sl', k', r'⟩ := v
          rw [hq] at h
          simp at h
          obtain ⟨rfl, rfl, rfl⟩ := h
          simpa using ih hq

theorem unescapeQuotes_cons_ne (c : Char) (l : List Char) (hc : c ≠ '"') :
    unescapeQuotes (c :: l) = c :: unescapeQuotes l := by
  cases l with
  | nil => simp [unescapeQuotes, hc]
  | cons x t =>
    rw [unescapeQuotes.eq_def]
    simp [hc]

theorem scanQuoted_unescape_length :
    ∀ (fuel : Nat) {s sl : List Char} {k : Nat} {r : List Char},
      scanQuoted fuel s = some (sl, k, r) → (unescapeQuotes sl).length + k = sl.length := by
  intro fuel
  induction fuel with
  | zero => intro s sl k r h; simp [scanQuoted] at h
  | succ fuel ih =>
    intro s sl k r h
    cases s with
    | nil => simp [scanQuoted] at h
    | cons c rest =>
      rw [scanQuoted] at h
      by_cases hc : c = '"'
      · subst hc
        rw [if_pos rfl] at h
        by_cases hh : rest.head? = some '"'
        · rw [if_pos hh] at h
          cases hq : scanQuoted fuel rest.tail with
          | none => rw [hq] at h; simp at h
          | some v =>
            obtain ⟨sl', k', r'⟩ := v
            rw [hq] at h
            simp at h
            obtain ⟨rfl, rfl, rfl⟩ := h
            have hu : unescapeQuotes ('"' :: '"' :: sl') = '"' :: unescapeQuotes sl' := by
              rw [unescapeQuotes.eq_def]; rfl
            have := ih hq
            simp [hu]
            omega
        · rw [if_neg hh] at h
          simp at h
          obtain ⟨rfl, rfl, rfl⟩ := h
          simp [unescapeQuotes]
      · rw [if_neg hc] at h
        cases hq : scanQuoted fuel rest with
        | none => rw [hq] at h; simp at h
        | some v =>
          obtain ⟨sl', k', r'⟩ := v
          rw [hq] at h
          simp at h
          obtain ⟨rfl, rfl, rfl⟩ := h
          rw [unescapeQuotes_cons_ne c sl' hc]
          have := ih hq
          simp
          omega

theorem getlineLoop_ok_length (delim : Char) (limitLen : Nat) :
    ∀ (fuel : Nat) (buf : List Char) (q : Bool) (maxRow : Nat) (grew : Bool)
      (file row rest : List Char) (mro : Nat),
      getlineLoop delim limitLen fuel buf q maxRow grew file = .ok row rest mro →
      rest.length ≤ file.length ∧ (buf = [] → rest.length < file.length) := by
  intro fuel
  induction fuel with
  | zero =>
    intro buf q maxRow grew file row rest mro h
    simp [getlineLoop] at h
  | succ fuel ih =>
    intro buf q maxRow grew file row rest mro h
    rw [getlineLoop] at h
    by_cases h1 : buf.length + 100 > maxRow ∧ maxRow * 2 + 100 ≥ limitLen
    · rw [if_pos h1] at h; simp at h
    · rw [if_neg h1] at h
      set maxRow' := if buf.length + 100 > maxRow then maxRow * 2 + 100 else maxRow with hmr
      have hsplit := fgetsChunk_append (maxRow' - buf.length - 1) file
      by_cases h2 : (fgetsChunk (maxRow' - buf.length - 1) file).1 = []
      · rw [if_pos h2] at h
        by_cases h3 : buf = []
        · rw [if_pos h3] at h; simp at h
        · rw [if_neg h3] at h
          simp only [GetlineResult.ok.injEq] at h
          obtain ⟨_, rfl, _⟩ := h
          constructor
          · rw [h2] at hsplit
            simp at hsplit
            simp [hsplit]
          · intro hc; exact absurd hc h3
      · rw [if_neg h2] at h
        have hlt : (fgetsChunk (maxRow' - buf.length - 1) file).2.length < file.length := by
          have hlen : ((fgetsChunk (maxRow' - buf.length - 1) file).1 ++
              (fgetsChunk (maxRow' - buf.length - 1) file).2).length = file.length := by
            rw [hsplit]
          rw [List.length_append] at hlen
          have : 0 < (fgetsChunk (maxRow' - buf.length - 1) file).1.length :=
            List.length_pos.mpr h2
          omega
        by_cases h4 : ((buf ++ (fgetsChunk (maxRow' - buf.length - 1) file).1).getLast?
              = some '\n'
            ∨ (buf ++ (fgetsChunk (maxRow' - buf.length - 1) file).1).getLast? = some '\r')
            ∧ scanQuotes delim ((fgetsChunk (maxRow' - buf.length - 1) file).1.length + 1) q
                buf.getLast? (fgetsChunk (maxRow' - buf.length - 1) file).1
              = false
        · rw [if_pos h4] at h
          simp only [GetlineResult.ok.injEq] at h
          obtain ⟨_, rfl, _⟩ := h
          exact ⟨Nat.le_of_lt hlt, fun _ => hlt⟩
        · rw [if_neg h4] at h
          have := ih _ _ _ _ _ _ _ _ h
          exact ⟨Nat.le_trans this.1 (Nat.le_of_lt hlt),
            fun _ => Nat.lt_of_le_of_lt this.1 hlt⟩

theorem csvGetline_ok_length (delim : Char) (limitLen maxRow0 : Nat)
    (file row rest : List Char) (mro : Nat)
    (h : csvGetline delim limitLen maxRow0 file = .ok row rest mro) :
    rest.length < file.length := by
  unfold csvGetline at h
  exact (getlineLoop_ok_length delim limitLen _ _ _ _ _ _ _ _ _ h).2 rfl

theorem csvNext_cursor_pos (s : CSVTable) (c : CSVCursor) (h : s.eof = false) :
    ((csvNext s c).2.2).csvpos = s.pos := by
  unfold csvNext
  rw [if_neg (by simp [h])]
  cases hg : csvGetline s.cDelim s.limitLength s.maxRow s.rem with
  | eofEnd rest mro => simp
  | tooLong rest mro => simp
  | ok row rest mro =>
    cases hp : parseRow s.cDelim s.limitColumn row s.maxCol with
    | errEof mco => simp [hp]
    | errNoEof mco => simp [hp]
    | ok cols mco => simp [hp]

theorem csvNext_pos_lt (s : CSVTable) (c : CSVCursor) (h : s.eof = false)
    (hok : (csvNext s c).1 = SQLITE_OK) (hne : ((csvNext s c).2.1).eof = false) :
    s.pos < ((csvNext s c).2.1).pos := by
  unfold csvNext at hok hne ⊢
  rw [if_neg (by simp [h])] at hok hne ⊢
  cases hg : csvGetline s.cDelim s.limitLength s.maxRow s.rem with
  | eofEnd rest mro => rw [hg] at hne; simp at hne
  | tooLong rest mro => rw [hg] at hne; simp at hne
  | ok row rest mro =>
    rw [hg] at hok hne
    have hlt := csvGetline_ok_length s.cDelim s.limitLength s.maxRow s.rem row rest mro hg
    cases hp : parseRow s.cDelim s.limitColumn row s.maxCol with
    | errEof mco =>
      simp [hp, SQLITE_ERROR, SQLITE_OK] at hok
    | errNoEof mco =>
      simp [hp, SQLITE_ERROR, SQLITE_OK] at hok
    | ok cols mco =>
      simp [hp]
      omega

theorem scanGo_head (fuel : Nat) (s : CSVTable) (c : CSVCursor)
    (h : s.eof = false) (hf : 0 < fuel) :
    ((scanGo fuel s c).1).head? = some (csvRowid c, s.cols) := by
  cases fuel with
  | zero => simp at hf
  | succ fuel =>
    rw [scanGo]
    rw [if_neg (by simp [h])]
    by_cases hok : (csvNext s c).1 = SQLITE_OK
    · simp [hok]
    · simp [hok]

theorem scanGo_chain (fuel : Nat) :
    ∀ (s : CSVTable) (c : CSVCursor),
      (s.eof = false → c.csvpos < s.pos) →
      List.Chain' (· < ·) (((scanGo fuel s c).1).map Prod.fst) := by
  induction fuel with
  | zero => intro s c _; simp [scanGo]
  | succ fuel ih =>
    intro s c hinv
    by_cases he : s.eof
    · simp [scanGo, he]
    · have he' : s.eof = false := by simpa using he
      rw [scanGo, if_neg (by simp [he'])]
      by_cases hok : (csvNext s c).1 = SQLITE_OK
      · simp only [if_pos hok]
        rw [List.map_cons, List.chain'_cons']
        constructor
        · intro y hy
          cases hL : ((scanGo fuel (csvNext s c).2.1 (csvNext s c).2.2).1) with
          | nil => rw [hL] at hy; simp at hy
          | cons hd tl =>
            rw [hL] at hy
            simp at hy
            cases fuel with
            | zero => simp [scanGo] at hL
            | succ fuel =>
              by_cases he2 : (csvNext s c).2.1.eof
              · simp [scanGo, he2] at hL
              · have he2' : (csvNext s c).2.1.eof = false := by simpa using he2
                have hhd := scanGo_head (fuel + 1) (csvNext s c).2.1 (csvNext s c).2.2
                  he2' (Nat.succ_pos fuel)
                rw [hL] at hhd
                simp at hhd
                subst hy
                rw [hhd]
                have h1 : c.csvpos < s.pos := hinv he'
                have h2 : (csvNext s c).2.2.csvpos = s.pos := csvNext_cursor_pos s c he'
                simp [csvRowid, h2]
                exact_mod_cast h1
        · exact ih (csvNext s c).2.1 (csvNext s c).2.2 (fun he2 => by
            rw [csvNext_cursor_pos s c he']
            exact csvNext_pos_lt s c he' hok he2)
      · simp only [if_neg hok]
        simp

/-- C8: across one full scan (open scan, then advance until exhausted),
the `csvRowid` values observed at each positioned state are strictly
increasing; each observed value is the file offset recorded by `csvNext`
just before the exposed row was read (`pCsr->csvpos = csv_tell`,
csv.c:337). -/
theorem fullScan_rowids_strictly_increasing (s : CSVTable) (c : CSVCursor) :
    List.Chain' (· < ·) (((fullScan s c).1).map Prod.fst) := by
  unfold fullScan
  by_cases ht : (csvFilter s c).1 = SQLITE_OK
  · simp only [if_pos ht]
    apply scanGo_chain
    intro he2
    have hfe : csvFilter s c =
        csvNext { s with eof := false, rem := s.file.drop s.offsetFirstRow,
                         pos := s.offsetFirstRow } c := rfl
    rw [hfe] at ht he2 ⊢
    rw [csvNext_cursor_pos _ c rfl]
    exact csvNext_pos_lt _ c rfl ht he2
  · simp [if_neg ht]

/-- C9: an index outside the tokenized range, negative or at or beyond
the current row's field count, yields a null value and SQLITE_OK, never
an error (csv.c:455-456, csv.c:492). -/
theorem csvColumn_out_of_range (st : CSVTable) (alloc : Nat → Bool) (i : Int)
    (h : i < 0 ∨ (st.nCol : Int) ≤ i) :
    csvColumn alloc st i = (.null, [], SQLITE_OK) := by
  unfold csvColumn
  rw [if_pos h]

theorem csvColumn_out_of_range_witness :
    csvColumn (fun _ => true) (mkTable 1000000000 2000 []) 5 = (.null, [], SQLITE_OK)
    ∧ csvColumn (fun _ => true) (mkTable 1000000000 2000 []) (-1) = (.null, [], SQLITE_OK) :=
  ⟨csvColumn_out_of_range _ _ 5 (by decide), csvColumn_out_of_range _ _ (-1) (by decide)⟩

/-- C10: the end-of-data flag lives on the shared table object, not on
the cursor: `csvEofC` reports the same value through any cursor,
`csvNext` on any cursor of an at-end table fails with SQLITE_ERROR and
changes nothing (csv.c:332-334), and a new scan open is exactly a row
read on the table with the flag cleared and the file rewound
(csv.c:309-313). -/
theorem eof_flag_table_level (s : CSVTable) (a b : CSVCursor) :
    csvEofC s a = csvEofC s b
    ∧ (s.eof = true → csvNext s a = (SQLITE_ERROR, s, a))
    ∧ ((csvNext s a).2.1.eof = true → csvEofC ((csvNext s a).2.1) b = true)
    ∧ csvFilter s a = csvNext { s with eof := false, rem := s.file.drop s.offsetFirstRow,
                                       pos := s.offsetFirstRow } a := by
  refine ⟨rfl, ?_, ?_, rfl⟩
  · intro he
    unfold csvNext
    rw [if_pos he]
  · intro h2
    exact h2

theorem eof_flag_table_level_witness :
    csvEofC { mkTable 5 5 [] with eof := true } ⟨0⟩
      = csvEofC { mkTable 5 5 [] with eof := true } ⟨3⟩
    ∧ csvNext { mkTable 5 5 [] with eof := true } ⟨0⟩
      = (SQLITE_ERROR, { mkTable 5 5 [] with eof := true }, ⟨0⟩)
    ∧ csvEofC ((csvNext { mkTable 5 5 [] with eof := true } ⟨0⟩).2.1) ⟨3⟩ = true := by
  have h := eof_flag_table_level { mkTable 5 5 [] with eof := true } ⟨0⟩ ⟨3⟩
  exact ⟨h.1, h.2.1 rfl, h.2.2.1 (by decide)⟩

/-- C6 counterexample: opening a cursor (csvOpen, csv.c:262-276) leaves
the table's reference count unchanged, so "every cursor open increments
the table's reference count" fails already on a table with one
reference; closing a cursor (csvClose, csv.c:282-288) does not
decrement it either. -/
theorem cursor_open_close_refcount_counterexample :
    (csvOpenRef { nBusy := 1, freed := false }).nBusy = 1
    ∧ ¬ (csvOpenRef { nBusy := 1, freed := false }).nBusy = 1 + 1
    ∧ (csvCloseRef { nBusy := 2, freed := false }).nBusy = 2
    ∧ ¬ (csvCloseRef { nBusy := 2, freed := false }).nBusy = 2 - 1 := by
  refine ⟨rfl, by decide, rfl, by decide⟩

/-- C6 amended: cursor open and cursor close leave the reference count
untouched; the count is incremented by csvReference and decremented by
csvRelease (used by table disconnect), the table state being torn down
exactly when the decremented count drops below one; a balanced
reference/release pair on a live table is the identity. -/
theorem refcount_lifecycle :
    (∀ t : RefState, csvOpenRef t = t)
    ∧ (∀ t : RefState, csvCloseRef t = t)
    ∧ (∀ t : RefState, (csvReference t).nBusy = t.nBusy + 1)
    ∧ (∀ t : RefState, (csvDisconnectRef t).nBusy = t.nBusy - 1)
    ∧ (∀ t : RefState, (csvRelease t).freed = (t.freed || decide (t.nBusy - 1 < 1)))
    ∧ (∀ t : RefState, 1 ≤ t.nBusy → csvRelease (csvReference t) = t) := by
  refine ⟨fun t => rfl, fun t => rfl, fun t => rfl, fun t => ?_, fun t => ?_, fun t ht => ?_⟩
  · unfold csvDisconnectRef csvRelease
    dsimp only
    split <;> rfl
  · unfold csvRelease
    dsimp only
    by_cases h : t.nBusy - 1 < 1
    · rw [if_pos h]
      simp [h]
    · rw [if_neg h]
      simp [h]
  · unfold csvReference csvRelease
    dsimp only
    rw [if_neg (by omega)]
    cases t with
    | mk n f => simp

theorem refcount_lifecycle_witness :
    csvOpenRef { nBusy := 2, freed := false } = { nBusy := 2, freed := false }
    ∧ csvRelease (csvReference { nBusy := 2, freed := false })
      = { nBusy := 2, freed := false } :=
  ⟨refcount_lifecycle.1 _, refcount_lifecycle.2.2.2.2.2 _ (by decide)⟩

/-- C3: materializing a tokenized quoted field whose escaped-quote count
`k` is at least 1 allocates exactly one buffer, of
`sliceLength - k + 1` bytes, and returns the slice with every doubled
quote collapsed (the copy loop `unescapeQuotes`, csv.c:476-484); it
fails with the too-big error when that byte count exceeds the
configured maximum length (csv.c:466-468) and with out-of-memory when
the allocation fails (csv.c:470-473).  A field with `k = 0` is returned
as the stored slice with no unescaping allocation (csv.c:487-489).  For
a slice produced by the tokenizer's quoted scan, collapsing removes
exactly `k` characters, so the buffer fits the collapsed text plus its
terminator. -/
theorem quoted_field_materialization (st : CSVTable) (alloc : Nat → Bool) (i : Nat)
    (sl : List Char) (k : Nat) (hi : i < st.nCol) (hc : st.cols[i]? = some (sl, k)) :
    ((1 ≤ k →
      (sl.length - k + 1 > st.limitLength →
        csvColumn alloc st (i : Int) = (.toobig, [], SQLITE_OK))
      ∧ (¬ sl.length - k + 1 > st.limitLength → alloc (sl.length - k + 1) = false →
        csvColumn alloc st (i : Int) = (.nomem, [], SQLITE_OK))
      ∧ (¬ sl.length - k + 1 > st.limitLength → alloc (sl.length - k + 1) = true →
        csvColumn alloc st (i : Int)
          = (.text (unescapeQuotes sl), [sl.length - k + 1], SQLITE_OK)))
    ∧ (k = 0 → csvColumn alloc st (i : Int) = (.text sl, [], SQLITE_OK)))
    ∧ ∀ (fuel : Nat) (src r : List Char), scanQuoted fuel src = some (sl, k, r) →
        (unescapeQuotes sl).length + k = sl.length := by
  have hcond : ¬(((i : Nat) : Int) < 0 ∨ (st.nCol : Int) ≤ ((i : Nat) : Int)) := by
    omega
  have hidx : st.cols[(((i : Nat) : Int)).toNat]? = some (sl, k) := by
    simpa using hc
  refine ⟨⟨?_, ?_⟩, ?_⟩
  · intro hk
    have hk0 : ¬ k = 0 := by omega
    refine ⟨?_, ?_, ?_⟩
    · intro hbig
      unfold csvColumn
      rw [if_neg hcond, hidx]
      simp [hk0, hbig]
    · intro hfit hal
      unfold csvColumn
      rw [if_neg hcond, hidx]
      simp [hk0, hfit, hal]
    · intro hfit hal
      unfold csvColumn
      rw [if_neg hcond, hidx]
      simp [hk0, hfit, hal]
  · intro hk
    unfold csvColumn
    rw [if_neg hcond, hidx]
    simp [hk]
  · intro fuel src r h
    exact scanQuoted_unescape_length fuel h

theorem quoted_field_materialization_witness :
    csvColumn (fun _ => true)
        { mkTable 1000000000 2000 [] with nCol := 1, cols := [(['a', '"', '"', 'b'], 1)] }
        ((0 : Nat) : Int)
      = (.text ['a', '"', 'b'], [4], SQLITE_OK)
    ∧ (unescapeQuotes ['a', '"', '"', 'b']).length + 1 = (['a', '"', '"', 'b'] : List Char).length := by
  have h := quoted_field_materialization
    { mkTable 1000000000 2000 [] with nCol := 1, cols := [(['a', '"', '"', 'b'], 1)] }
    (fun _ => true) 0 ['a', '"', '"', 'b'] 1 (by decide) rfl
  refine ⟨?_, h.2 6 ['a', '"', '"', 'b', '"'] [] (by decide)⟩
  have h3 := (h.1.1 (by decide)).2.2 (by decide) rfl
  simpa using h3

/-- C2 (code-bug evaluation): on the single-row file `F2`, whose quoted
first field contains a doubled quote astride the 99-byte fgets boundary
followed by an embedded newline, a fresh-buffer line read recognizes
the embedded newline (byte 101, between the opening quote at byte 0 and
the closing quote at byte 103) as the row terminator and returns a row
truncated inside the quoted field; with a buffer capacity of 103 the
pair falls inside one chunk and the same file yields the whole row,
embedded newline included, as the claim requires. -/
theorem terminator_recognized_inside_quoted_field :
    csvGetline ',' 1000000000 0 F2
      = .ok ('"' :: (List.replicate 97 'a' ++ ('"' :: '"' :: 'b' :: '\n' :: [])))
          ('c' :: '"' :: ',' :: 'd' :: '\n' :: []) 103
    ∧ csvGetline ',' 1000000000 103 F2 = .ok F2 [] 108 := by
  constructor
  · decide
  · decide

/-- C7 (code-bug evaluation): on the table built over `F7`, the first
full scan delivers one row (the second row read fails: the doubled
quote straddles the fgets boundary, the row is cut at the embedded
newline and then rejected as unterminated), while an immediately
repeated full scan delivers two rows, because the row-buffer capacity
persisted from the first scan (103 instead of 100) shifts the chunk
boundaries and the second row now parses.  The two scans therefore
return different row sequences even though the filter does seek back to
the data start and clear the end-of-data flag. -/
theorem repeated_scan_differs :
    ((fullScan (initTable 1000000000 2000 F7).2 ⟨0⟩).1).length = 1
    ∧ ((fullScan ((fullScan (initTable 1000000000 2000 F7).2 ⟨0⟩).2.1)
          ((fullScan (initTable 1000000000 2000 F7).2 ⟨0⟩).2.2)).1).length = 2
    ∧ (fullScan (initTable 1000000000 2000 F7).2 ⟨0⟩).1
        ≠ (fullScan ((fullScan (initTable 1000000000 2000 F7).2 ⟨0⟩).2.1)
            ((fullScan (initTable 1000000000 2000 F7).2 ⟨0⟩).2.2)).1 := by
  refine ⟨by decide, by decide, by decide⟩

/-- C4 counterexample: advancing over the malformed row `"ab<NL>`
(unterminated quote) returns SQLITE_ERROR from `csvNext` — the error is
surfaced to the caller of advance, not swallowed — and advancing over
`a,b,c<NL>` with a column limit of 1 returns SQLITE_ERROR while leaving
the end-of-data flag clear, so that failure does not put the cursor in
the exhausted state either. -/
theorem advance_surfaces_errors_counterexample :
    (csvNext (mkTable 1000000000 2000 ('"' :: 'a' :: 'b' :: '\n' :: [])) ⟨0⟩).1
      = SQLITE_ERROR
    ∧ (csvNext (mkTable 1000000000 1 ('a' :: ',' :: 'b' :: ',' :: 'c' :: '\n' :: [])) ⟨0⟩).1
      = SQLITE_ERROR
    ∧ ((csvNext (mkTable 1000000000 1 ('a' :: ',' :: 'b' :: ',' :: 'c' :: '\n' :: [])) ⟨0⟩).2.1).eof
      = false := by
  refine ⟨by decide, by decide, by decide⟩

/-- C4 amended: the failure paths of one advance, by kind.  A NULL from
the line reader (over-long row, clean end of data, allocation failure)
sets the end-of-data flag and returns SQLITE_OK, so those failures are
silent truncation; a malformed row (unterminated quote or missing
delimiter) sets the end-of-data flag but returns SQLITE_ERROR, which
surfaces to the caller of advance; a row over the column limit returns
SQLITE_ERROR without touching the end-of-data flag at all. -/
theorem advance_failure_paths (s : CSVTable) (c : CSVCursor) (h : s.eof = false) :
    (∀ rest mro, csvGetline s.cDelim s.limitLength s.maxRow s.rem = .tooLong rest mro →
      (csvNext s c).1 = SQLITE_OK ∧ ((csvNext s c).2.1).eof = true)
    ∧ (∀ rest mro, csvGetline s.cDelim s.limitLength s.maxRow s.rem = .eofEnd rest mro →
      (csvNext s c).1 = SQLITE_OK ∧ ((csvNext s c).2.1).eof = true)
    ∧ (∀ row rest mro mco,
        csvGetline s.cDelim s.limitLength s.maxRow s.rem = .ok row rest mro →
        parseRow s.cDelim s.limitColumn row s.maxCol = .errEof mco →
        (csvNext s c).1 = SQLITE_ERROR ∧ ((csvNext s c).2.1).eof = true)
    ∧ (∀ row rest mro mco,
        csvGetline s.cDelim s.limitLength s.maxRow s.rem = .ok row rest mro →
        parseRow s.cDelim s.limitColumn row s.maxCol = .errNoEof mco →
        (csvNext s c).1 = SQLITE_ERROR ∧ ((csvNext s c).2.1).eof = false) := by
  refine ⟨?_, ?_, ?_, ?_⟩
  · intro rest mro hg
    unfold csvNext
    rw [if_neg (by simp [h])]
    rw [hg]
    simp
  · intro rest mro hg
    unfold csvNext
    rw [if_neg (by simp [h])]
    rw [hg]
    simp
  · intro row rest mro mco hg hp
    unfold csvNext
    rw [if_neg (by simp [h])]
    rw [hg]
    simp [hp]
  · intro row rest mro mco hg hp
    unfold csvNext
    rw [if_neg (by simp [h])]
    rw [hg]
    simp [hp, h]

theorem advance_failure_paths_witness :
    ((csvNext (mkTable 50 2000 (List.replicate 120 'x')) ⟨0⟩).1 = SQLITE_OK
      ∧ ((csvNext (mkTable 50 2000 (List.replicate 120 'x')) ⟨0⟩).2.1).eof = true)
    ∧ ((csvNext (mkTable 9 9 []) ⟨0⟩).1 = SQLITE_OK
      ∧ ((csvNext (mkTable 9 9 []) ⟨0⟩).2.1).eof = true)
    ∧ ((csvNext (mkTable 1000000000 2000 ('"' :: 'a' :: 'b' :: '\n' :: [])) ⟨0⟩).1
        = SQLITE_ERROR
      ∧ ((csvNext (mkTable 1000000000 2000 ('"' :: 'a' :: 'b' :: '\n' :: [])) ⟨0⟩).2.1).eof
        = true)
    ∧ ((csvNext (mkTable 1000000000 1 ('a' :: ',' :: 'b' :: ',' :: 'c' :: '\n' :: [])) ⟨0⟩).1
        = SQLITE_ERROR
      ∧ ((csvNext (mkTable 1000000000 1
            ('a' :: ',' :: 'b' :: ',' :: 'c' :: '\n' :: [])) ⟨0⟩).2.1).eof = false) :=
  ⟨(advance_failure_paths _ ⟨0⟩ rfl).1 (List.replicate 21 'x') 100 (by decide),
   (advance_failure_paths _ ⟨0⟩ rfl).2.1 [] 100 (by decide),
   (advance_failure_paths _ ⟨0⟩ rfl).2.2.1 ('"' :: 'a' :: 'b' :: '\n' :: []) [] 5 1
     (by decide) (by decide),
   (advance_failure_paths _ ⟨0⟩ rfl).2.2.2 ('a' :: ',' :: 'b' :: ',' :: 'c' :: '\n' :: []) [] 100 2
     (by decide) (by decide)⟩

/-- C5 counterexample: on the file `ab` with no terminating newline, the
line reader finalizes the partial content as the row `ab` with no
trailing newline appended, and advancing over it returns SQLITE_ERROR
with the end-of-data flag set — the tokenizer finds no row terminator —
so the row is dropped rather than exposed to the cursor. -/
theorem final_partial_row_counterexample :
    csvGetline ',' 1000000000 0 ('a' :: 'b' :: []) = .ok ('a' :: 'b' :: []) [] 3
    ∧ ('a' :: 'b' :: []).getLast? ≠ some '\n'
    ∧ (csvNext (mkTable 1000000000 2000 ('a' :: 'b' :: [])) ⟨0⟩).1 = SQLITE_ERROR
    ∧ ((csvNext (mkTable 1000000000 2000 ('a' :: 'b' :: [])) ⟨0⟩).2.1).eof = true := by
  refine ⟨by decide, by decide, by decide, by decide⟩

theorem fgetsChunk_nil (k : Nat) : fgetsChunk k [] = ([], []) := by
  cases k <;> rfl

theorem mem_of_getLast?_eq_some {l : List Char} {a : Char} (h : l.getLast? = some a) :
    a ∈ l := by
  have ha : a ∈ l.getLast? := by simp [h, Option.mem_def]
  obtain ⟨hne, rfl⟩ := List.mem_getLast?_eq_getLast ha
  exact List.getLast_mem hne

/-- C5 amended: at end of file a non-empty partial row with no
terminator is finalized as the last row verbatim, with no trailing
newline appended (csv.c:156-162); tokenizing it then finds no row
terminator whenever the partial row contains no delimiter, so the row
is rejected (end-of-data set, SQLITE_ERROR) instead of being exposed to
the cursor.  Stated for rows short enough to be read in one chunk and a
row-length limit above the first growth step. -/
theorem final_partial_row_behavior (file : List Char) (delim : Char) (limL : Nat)
    (hne : file ≠ []) (hlen : file.length ≤ 98)
    (hch : ∀ ch ∈ file, ch ≠ '\n' ∧ ch ≠ '\r') (hlim : 300 < limL) :
    csvGetline delim limL 0 file = .ok file [] (file.length + 1)
    ∧ ((∀ ch ∈ file, ch ≠ delim) → ∀ limC mc0,
        parseRow delim limC file mc0
          = .errEof (if mc0 < 1 then file.length / 5 + 1 else mc0)) := by
  have hnl : '\n' ∉ file := fun hm => ((hch _ hm).1 rfl)
  have hchunk : fgetsChunk 99 file = (file, []) :=
    fgetsChunk_of_no_newline 99 file (by omega) hnl
  have hpos : 0 < file.length := List.length_pos.mpr hne
  constructor
  · unfold csvGetline
    rw [if_pos (by norm_num)]
    rw [getlineLoop]
    rw [if_neg (by simp)]
    have e1 : (if ([] : List Char).length + 100 > 100 then 100 * 2 + 100 else 100) = 100 := by
      simp
    simp only [e1, List.length_nil, Bool.or_false]
    norm_num
    rw [hchunk]
    simp only
    rw [if_neg hne]
    have hterm : ¬((file.getLast? = some '\n' ∨ file.getLast? = some '\r')
        ∧ scanQuotes delim (file.length + 1) false none file = false) := by
      intro hcon
      rcases hcon.1 with hl | hl
      · exact (hch _ (mem_of_getLast?_eq_some hl)).1 rfl
      · exact (hch _ (mem_of_getLast?_eq_some hl)).2 rfl
    rw [if_neg hterm]
    obtain ⟨m, hm⟩ : ∃ m, file.length = m + 1 := ⟨file.length - 1, by omega⟩
    rw [hm, getlineLoop]
    rw [if_neg (by omega)]
    have e2 : (if file.length + 100 > 100 then 100 * 2 + 100 else 100) = 300 := by
      rw [if_pos (by omega)]
    rw [e2] at *
    have hgrow : file.length + 100 > 100 := by omega
    simp [fgetsChunk_nil, hne, hgrow, hm]
  · intro hnd limC mc0
    unfold parseRow
    rw [parseColsLoop]
    by_cases hq : file.head? = some '"'
    · rw [if_pos hq]
      cases hsq : scanQuoted (file.tail.length + 1) file.tail with
      | none => rfl
      | some v =>
        obtain ⟨sl, k, r⟩ := v
        have hdec := scanQuoted_decomp (file.tail.length + 1) hsq
        have hpb : strpbrkD delim r = none := by
          apply strpbrkD_eq_none
          intro c hc
          have hcf : c ∈ file := by
            apply List.mem_of_mem_tail
            rw [hdec]
            simp [hc]
          rcases (hch c hcf) with ⟨h1, _⟩
          rcases (hnd c hcf) with h2
          simp [h1]
          exact fun h => absurd h h2
        simp [hpb]
    · rw [if_neg hq]
      have hpb : strpbrkD delim file = none := by
        apply strpbrkD_eq_none
        intro c hc
        have := (hch c hc).1
        have h2 := hnd c hc
        simp [this]
        exact fun h => absurd h h2
      rw [hpb]

theorem final_partial_row_behavior_witness :
    csvGetline ',' 1000000000 0 ('a' :: 'b' :: []) = .ok ('a' :: 'b' :: []) [] 3
    ∧ parseRow ',' 2000 ('a' :: 'b' :: []) 0 = .errEof 1 := by
  have h := final_partial_row_behavior ('a' :: 'b' :: []) ',' 1000000000
    (by decide) (by decide) (by decide) (by decide)
  exact ⟨by simpa using h.1, by simpa using h.2 (by decide) 2000 0⟩

theorem parseColsLoop_join (delim : Char) (limitCol : Nat)
    (hdq : delim ≠ '"') (hdn : delim ≠ '\n') :
    ∀ (fields : List (List Char)) (fuel nCol maxCol : Nat) (acc : List (List Char × Nat)),
      fields ≠ [] →
      (∀ f ∈ fields, (∀ c ∈ f, c ≠ delim ∧ c ≠ '\n') ∧ f.head? ≠ some '"') →
      nCol + fields.length ≤ limitCol →
      (joinFields delim fields ++ ['\n']).length + 1 ≤ fuel →
      (parseColsLoop delim limitCol fuel (joinFields delim fields ++ ['\n'])
          nCol maxCol acc).colsOf
        = some (acc ++ fields.map (fun f => (f, 0))) := by
  intro fields
  induction fields with
  | nil => intro fuel nCol maxCol acc hne; exact absurd rfl hne
  | cons f fs ih =>
    intro fuel nCol maxCol acc _ hfld hlim hfuel
    have hhf := hfld f (List.mem_cons_self f fs)
    have hfc : ∀ c ∈ f, ¬(c = delim ∨ c = '\n') := by
      intro c hc
      rcases hhf.1 c hc with ⟨h1, h2⟩
      rintro (rfl | rfl)
      · exact h1 rfl
      · exact h2 rfl
    obtain ⟨fu, rfl⟩ : ∃ fu, fuel = fu + 1 := by
      refine ⟨fuel - 1, ?_⟩
      omega
    cases fs with
    | nil =>
      have hs : joinFields delim [f] ++ ['\n'] = f ++ '\n' :: [] := by
        simp [joinFields]
      rw [hs, parseColsLoop]
      have hhead : ¬ (f ++ '\n' :: []).head? = some '"' := by
        cases f with
        | nil => simp
        | cons c f' =>
          simpa using hhf.2
      rw [if_neg hhead]
      rw [strpbrkD_append delim f '\n' [] hfc (Or.inr rfl)]
      dsimp only
      simp [RowParse.colsOf]
    | cons f2 fs' =>
      have hs : joinFields delim (f :: f2 :: fs') ++ ['\n']
          = f ++ delim :: (joinFields delim (f2 :: fs') ++ ['\n']) := by
        simp [joinFields]
      rw [hs, parseColsLoop]
      have hhead : ¬ (f ++ delim :: (joinFields delim (f2 :: fs') ++ ['\n'])).head?
          = some '"' := by
        cases f with
        | nil =>
          simp
          exact fun h => hdq h
        | cons c f' =>
          simpa using hhf.2
      rw [if_neg hhead]
      rw [strpbrkD_append delim f delim (joinFields delim (f2 :: fs') ++ ['\n'])
        hfc (Or.inl rfl)]
      dsimp only
      rw [if_neg hdn]
      have hrne : ¬ (joinFields delim (f2 :: fs') ++ ['\n']) = [] := by simp
      have hlen2 : (joinFields delim (f2 :: fs') ++ ['\n']).length + 1 ≤ fu := by
        have : (f ++ delim :: (joinFields delim (f2 :: fs') ++ ['\n'])).length
            = f.length + 1 + (joinFields delim (f2 :: fs') ++ ['\n']).length := by
          simp
          omega
        rw [hs] at hfuel
        omega
      have hrec := ih fu (nCol + 1) (nCol + 6) (acc ++ [(f, 0)]) (by simp)
        (fun g hg => hfld g (List.mem_cons_of_mem f hg))
        (by simp at hlim ⊢; omega) hlen2
      have hrec2 := ih fu (nCol + 1) maxCol (acc ++ [(f, 0)]) (by simp)
        (fun g hg => hfld g (List.mem_cons_of_mem f hg))
        (by simp at hlim ⊢; omega) hlen2
      by_cases hg : nCol + 1 ≥ maxCol
      · rw [if_pos hg]
        rw [if_neg (by simp at hlim; omega)]
        rw [if_neg hrne]
        rw [hrec]
        simp
      · rw [if_neg hg]
        rw [if_neg hrne]
        rw [hrec2]
        simp

/-- C1: a well-formed row of N unquoted fields (none containing the
delimiter or a newline, none starting with a quote) joined by the
configured delimiter and terminated by a newline tokenizes into exactly
those N fields, each with escaped-quote count 0, and materializing any
column of the resulting state returns exactly the original field text
with no allocation.  The column-count limit must admit the row, as in
any successfully tokenized row. -/
theorem unquoted_row_tokenize_and_materialize (delim : Char) (fields : List (List Char))
    (limitCol maxCol0 : Nat)
    (hdq : delim ≠ '"') (hdn : delim ≠ '\n')
    (hf : ∀ f ∈ fields, (∀ c ∈ f, c ≠ delim ∧ c ≠ '\n') ∧ f.head? ≠ some '"')
    (hne : fields ≠ []) (hlim : fields.length ≤ limitCol) :
    (parseRow delim limitCol (joinRow delim fields) maxCol0).colsOf
      = some (fields.map (fun f => (f, 0)))
    ∧ ∀ (st : CSVTable) (alloc : Nat → Bool) (i : Nat) (hi : i < fields.length),
        st.nCol = fields.length → st.cols = fields.map (fun f => (f, 0)) →
        csvColumn alloc st ((i : Nat) : Int)
          = (.text (fields.get ⟨i, hi⟩), [], SQLITE_OK) := by
  constructor
  · unfold parseRow joinRow
    refine parseColsLoop_join delim limitCol hdq hdn fields _ 0 _ [] hne hf ?_ ?_
    · omega
    · omega
  · intro st alloc i hi hncol hcols
    have hcond : ¬(((i : Nat) : Int) < 0 ∨ (st.nCol : Int) ≤ ((i : Nat) : Int)) := by
      rw [hncol]
      omega
    unfold csvColumn
    rw [if_neg hcond]
    have ht : (((i : Nat) : Int)).toNat = i := by simp
    have hidx : st.cols[(((i : Nat) : Int)).toNat]? = some (fields.get ⟨i, hi⟩, 0) := by
      rw [ht, hcols]
      simp [List.getElem?_eq_getElem, hi]
    rw [hidx]
    simp

theorem unquoted_row_tokenize_and_materialize_witness :
    (parseRow ',' 2000 (joinRow ',' [['a', 'b'], ['c']]) 0).colsOf
      = some [(['a', 'b'], 0), (['c'], 0)]
    ∧ csvColumn (fun _ => true) { mkTable 1000000000 2000 [] with nCol := 2, cols := [(['a', 'b'], 0), (['c'], 0)] } ((1 : Nat) : Int)
      = (.text ['c'], [], SQLITE_OK) := by
  have h := unquoted_row_tokenize_and_materialize ',' [['a', 'b'], ['c']] 2000 0
    (by decide) (by decide) (by decide) (by decide) (by decide)
  refine ⟨by simpa using h.1, ?_⟩
  have h2 := h.2 { mkTable 1000000000 2000 [] with nCol := 2, cols := [(['a', 'b'], 0), (['c'], 0)] } (fun _ => true) 1 (by decide) rfl rfl
  simpa using h2
